import Mathlib

/-!
Shallow embedding of `auto.py` (Discord multi-user auto messenger).

The embedding follows the source file:
  * `precise_sleep` (lines 79–89): the computation of the target sleep
    duration is embedded as `precise_sleep_duration`; the polling loop only
    realises that duration.
  * `send_message` (lines 175–198): the whole body sits inside a
    `try/except Exception` block, so the function is total; the outcome of
    one network attempt is embedded as `AttemptResult` (either an HTTP
    response with a status code, or an exception raised during the attempt)
    and the classification the function performs as `send_message`.
  * `ChannelConfig.from_sheet_row` (lines 55–64) and `load_from_sheets`
    (lines 141–164, the row-processing loop): sheet rows are embedded as
    `SheetRow`.  Python's `float(row_data[7])` is an external parsing
    primitive; its already-parsed numeric result is carried in the row as a
    rational (a row whose Delay cell fails to parse aborts the whole load
    via the outer `except`, so it never yields a channel and is irrelevant
    to the claims below).  The Messages cell is kept as the raw character
    list so that `split`/`strip` can be modelled exactly.
  * `channel_message_loop` (lines 200–208): the body of the infinite
    `while True` loop carries no loop state, so the trace of its k-th
    iteration is `channel_cycle` applied to the k-th cycle's send outcomes.
    Send outcomes are produced by the environment (the network); they are
    modelled as an oracle `ℕ → SendOutcome` giving the outcome of the i-th
    send of the cycle.
  * `main` (lines 254–286): the dispatch on the loaded user list is
    embedded as `main_dispatch`.
-/

/-- Python's `str.strip()` / `if msg.strip()` truthiness work on whitespace
characters; `Char.isWhitespace` models them. -/
def pyWs (c : Char) : Bool := c.isWhitespace

/-- Python's `s.split(',')`: splits on every comma, keeping empty pieces
(`"".split(',') == [""]`). -/
def splitOnComma : List Char → List (List Char)
  | [] => [[]]
  | c :: cs =>
    if c = ',' then [] :: splitOnComma cs
    else
      match splitOnComma cs with
      | [] => [[c]]
      | p :: ps => (c :: p) :: ps

/-- Python's `str.strip()`: drop whitespace from both ends (here: first from
the right, then from the left). -/
def pyStrip (l : List Char) : List Char :=
  List.dropWhile pyWs ((List.dropWhile pyWs l.reverse).reverse)

/-- Line 57 of `auto.py`:
`[msg.strip() for msg in row_data[6].split(',') if msg.strip()]`. -/
def parseMessages (raw : List Char) : List (List Char) :=
  ((splitOnComma raw).map pyStrip).filter (fun m => m ≠ [])

/-- One data row of the sheet that survived the `len(row) < 8` check in
`load_from_sheets`: the eight columns User ID, User Alias, Token,
Channel URL, Channel ID, Channel Alias, Messages, Delay.  `delay` is the
rational value produced by `float(row_data[7])`. -/
structure SheetRow where
  user_id : String
  user_alias : String
  token : String
  channel_url : String
  channel_id : String
  channel_alias : String
  messages_raw : List Char
  delay : ℚ
deriving DecidableEq

/-- `ChannelConfig` of `auto.py` (lines 47–53). -/
structure ChannelConfig where
  url : String
  id : String
  «alias» : String
  messages : List (List Char)
  delay : ℚ
deriving DecidableEq

/-- `ChannelConfig.from_sheet_row` (lines 55–64): messages are split on
commas, stripped, and empty pieces dropped; the alias falls back to the id
when the cell is empty (Python truthiness of a string); the delay is the
parsed Delay cell, with no validation. -/
def ChannelConfig.from_sheet_row (row : SheetRow) : ChannelConfig :=
  { url := row.channel_url
    id := row.channel_id
    «alias» := if row.channel_alias = "" then row.channel_id else row.channel_alias
    messages := parseMessages row.messages_raw
    delay := row.delay }

/-- `UserConfig` of `auto.py` (lines 66–74). -/
structure UserConfig where
  user_id : String
  token : String
  channels : List ChannelConfig
  «alias» : String
deriving DecidableEq

/-- One step of the row-processing loop of `load_from_sheets`
(lines 143–162): create the user on first sight (with this row's token and
alias, falling back to the user id), then append the row's channel to that
user's channel list.  Python dicts preserve insertion order, so the user
collection is an insertion-ordered list. -/
def addRow (users : List UserConfig) (row : SheetRow) : List UserConfig :=
  if users.any (fun u => u.user_id = row.user_id) then
    users.map (fun u =>
      if u.user_id = row.user_id then
        { u with channels := u.channels ++ [ChannelConfig.from_sheet_row row] }
      else u)
  else
    users ++ [{ user_id := row.user_id
                token := row.token
                channels := [ChannelConfig.from_sheet_row row]
                «alias» := if row.user_alias = "" then row.user_id else row.user_alias }]

/-- Row-processing part of `load_from_sheets` (lines 142–164) over the data
rows (header row already removed, incomplete rows already skipped):
`list(users.values())` in insertion order. -/
def load_from_sheets (rows : List SheetRow) : List UserConfig :=
  rows.foldl addRow []

/-- `SendOutcome` as classified by `send_message`: success print (status in
200..299), failure print with the status, or the `except` branch. -/
inductive SendOutcome where
  | success
  | rejected (status : ℕ)
  | transportError
deriving DecidableEq

/-- What one network attempt inside the `try` block of `send_message`
produces: either a response with an HTTP status code, or an exception
raised somewhere during the attempt. -/
inductive AttemptResult where
  | response (status : ℕ)
  | raised
deriving DecidableEq

/-- `send_message` (lines 175–198): the whole attempt is wrapped in
`try/except Exception`, so every attempt result is mapped to a
`SendOutcome` and nothing escapes to the caller.  Line 191 tests
`199 < resp.status < 300`. -/
def send_message (res : AttemptResult) : SendOutcome :=
  match res with
  | .response s => if 199 < s ∧ s < 300 then .success else .rejected s
  | .raised => .transportError

/-- Observable events of one channel worker, in program order: the
cycle-start log line, one send per message (with its outcome), each
`precise_sleep` call (with the duration it was asked for), and the
cycle-completion log line. -/
inductive Event where
  | cycleStart
  | send (msg : List Char) (outcome : SendOutcome)
  | wait (d : ℚ)
  | cycleComplete
deriving DecidableEq

/-- The `for message in channel.messages` body (lines 204–206): send the
message (outcome given by the oracle at the message's index), then
`precise_sleep(channel.delay)`. -/
def sendPhase (out : ℕ → SendOutcome) (d : ℚ) : List (List Char) → ℕ → List Event
  | [], _ => []
  | m :: ms, i => .send m (out i) :: .wait d :: sendPhase out d ms (i + 1)

/-- One iteration of the `while True` body of `channel_message_loop`
(lines 202–208): start log, the message loop, completion log,
`precise_sleep(1.0)`. -/
def channel_cycle (ch : ChannelConfig) (out : ℕ → SendOutcome) : List Event :=
  .cycleStart :: sendPhase out ch.delay ch.messages 0 ++ [.cycleComplete, .wait 1]

/-- `channel_message_loop` (lines 200–208): the loop body reads only the
immutable `ChannelConfig`, so the k-th iteration's trace is `channel_cycle`
under the k-th cycle's outcome oracle. -/
def channel_message_loop (ch : ChannelConfig) (outs : ℕ → ℕ → SendOutcome)
    (k : ℕ) : List Event :=
  channel_cycle ch (outs k)

/-- The messages handed to `send_message`, in order, in a trace. -/
def sentMessages (tr : List Event) : List (List Char) :=
  tr.filterMap (fun e =>
    match e with
    | .send m _ => some m
    | _ => none)

/-- A `wait` event. -/
def isWait (e : Event) : Bool :=
  match e with
  | .wait _ => true
  | _ => false

/-- A `send` event. -/
def isSend (e : Event) : Bool :=
  match e with
  | .send _ _ => true
  | _ => false

/-- Erase send outcomes (map them all to `success`): what remains is the
outcome-independent behaviour of the worker. -/
def eraseOutcome (e : Event) : Event :=
  match e with
  | .send m _ => .send m .success
  | x => x

/-- How long an event suspends the worker. -/
def waitTime (e : Event) : ℚ :=
  match e with
  | .wait d => d
  | _ => 0

/-- Schedule of a trace from a start time: each event is stamped with the
cumulative wait time before it. -/
def timed : List Event → ℚ → List (ℚ × Event)
  | [], _ => []
  | e :: es, t => (t, e) :: timed es (t + waitTime e)

/-- The target sleep length computed by `precise_sleep` (lines 79–83):
`duration + random.uniform(min_random, max_random)` when `randomize` is
set, else `duration`; `u` is the value drawn by `random.uniform`. -/
def precise_sleep_duration (duration : ℚ) (randomize : Bool)
    (min_random max_random : ℚ) (u : ℚ) : ℚ :=
  if randomize then duration + u else duration

/-- Outcome of `main` after `load_from_sheets` returned (lines 262–279):
`if not users` print the no-users diagnostic and return, starting no
worker; otherwise start one `channel_message_loop` worker per
(user, channel) pair, via one `user_message_loop` thread per user. -/
inductive MainResult where
  | noUsersDiagnostic
  | started (workers : List (UserConfig × ChannelConfig))
deriving DecidableEq

/-- The worker set `main` launches: every channel of every user
(`user_message_loop`, lines 210–225, starts one thread per channel). -/
def workerPairs (users : List UserConfig) : List (UserConfig × ChannelConfig) :=
  users.flatMap (fun u => u.channels.map (fun c => (u, c)))

/-- Dispatch of `main` on the loaded configuration (lines 262–279). -/
def main_dispatch (users : List UserConfig) : MainResult :=
  if users.isEmpty then .noUsersDiagnostic else .started (workerPairs users)

-- Sanity check examples (concrete evaluation of the embedding).
example : parseMessages ("hi, bye ,,  ".toList) = ["hi".toList, "bye".toList] := by decide

example : send_message (.response 204) = .success := by decide

example : sentMessages (channel_cycle
    { url := "u", id := "c", «alias» := "a", messages := ["hi".toList], delay := 2 }
    (fun _ => .success)) = ["hi".toList] := by decide

/-! ### Lemmas about the worker trace -/

theorem sentMessages_sendPhase (out : ℕ → SendOutcome) (d : ℚ) :
    ∀ (ms : List (List Char)) (i : ℕ), sentMessages (sendPhase out d ms i) = ms := by
  intro ms
  induction ms with
  | nil => intro i; rfl
  | cons m ms ih =>
    intro i
    simp only [sendPhase, sentMessages, List.filterMap_cons]
    simpa [sentMessages] using ih (i + 1)

theorem sentMessages_channel_cycle (ch : ChannelConfig) (out : ℕ → SendOutcome) :
    sentMessages (channel_cycle ch out) = ch.messages := by
  simp only [channel_cycle, sentMessages, List.filterMap_cons, List.filterMap_append]
  simpa [sentMessages] using sentMessages_sendPhase out ch.delay ch.messages 0

theorem filter_isWait_sendPhase (out : ℕ → SendOutcome) (d : ℚ) :
    ∀ (ms : List (List Char)) (i : ℕ),
      (sendPhase out d ms i).filter isWait = List.replicate ms.length (Event.wait d) := by
  intro ms
  induction ms with
  | nil => intro i; rfl
  | cons m ms ih =>
    intro i
    simp only [sendPhase, List.filter_cons, isSend, isWait, List.length_cons,
      List.replicate_succ]
    simpa using ih (i + 1)

theorem chain_sendPhase (out : ℕ → SendOutcome) (d : ℚ) :
    ∀ (ms : List (List Char)) (i : ℕ) (rest : List Event),
      List.Chain' (fun a b => isSend a = true → b = Event.wait d) rest →
      List.Chain' (fun a b => isSend a = true → b = Event.wait d)
        (sendPhase out d ms i ++ rest) := by
  intro ms
  induction ms with
  | nil => intro i rest h; simpa [sendPhase] using h
  | cons m ms ih =>
    intro i rest h
    simp only [sendPhase, List.cons_append]
    refine List.chain'_cons'.mpr ⟨?_, List.chain'_cons'.mpr ⟨?_, ih (i + 1) rest h⟩⟩
    · intro y hy
      simp only [List.head?_cons, Option.mem_def, Option.some.injEq] at hy
      intro _
      exact hy.symm
    · intro y _ hsend
      simp [isSend] at hsend

theorem getLast?_channel_cycle (ch : ChannelConfig) (out : ℕ → SendOutcome) :
    (channel_cycle ch out).getLast? = some (Event.wait 1) := by
  have h : channel_cycle ch out
      = (Event.cycleStart :: sendPhase out ch.delay ch.messages 0
          ++ [Event.cycleComplete]) ++ [Event.wait 1] := by
    simp [channel_cycle]
  rw [h, List.getLast?_concat]

theorem map_eraseOutcome_sendPhase (d : ℚ) :
    ∀ (ms : List (List Char)) (out out' : ℕ → SendOutcome) (i j : ℕ),
      (sendPhase out d ms i).map eraseOutcome = (sendPhase out' d ms j).map eraseOutcome := by
  intro ms
  induction ms with
  | nil => intro out out' i j; rfl
  | cons m ms ih =>
    intro out out' i j
    simp only [sendPhase, List.map_cons, eraseOutcome]
    exact congrArg (fun l => Event.send m SendOutcome.success :: Event.wait d :: l)
      (ih out out' (i + 1) (j + 1))

theorem waitTime_eraseOutcome (e : Event) : waitTime (eraseOutcome e) = waitTime e := by
  cases e <;> rfl

theorem timed_map_congr :
    ∀ (tr tr' : List Event) (t : ℚ),
      tr.map eraseOutcome = tr'.map eraseOutcome →
      (timed tr t).map (fun p => (p.1, eraseOutcome p.2))
        = (timed tr' t).map (fun p => (p.1, eraseOutcome p.2)) := by
  intro tr
  induction tr with
  | nil =>
    intro tr' t h
    cases tr' with
    | nil => rfl
    | cons e es => simp at h
  | cons e es ih =>
    intro tr' t h
    cases tr' with
    | nil => simp at h
    | cons e' es' =>
      simp only [List.map_cons, List.cons.injEq] at h
      have hw : waitTime e = waitTime e' := by
        rw [← waitTime_eraseOutcome e, h.1, waitTime_eraseOutcome]
      simp only [timed, List.map_cons, hw, h.1]
      exact congrArg (List.cons _) (ih es' (t + waitTime e') h.2)

/-! ### Claim theorems about the channel worker -/

/-- C1: for every channel and every cycle `k` of its worker loop, the
sequence of messages passed to `send_message` during that cycle is exactly
the channel's configured message list, in its configured order, and every
subsequent cycle sends the identical sequence again. -/
theorem channel_message_loop_sends_configured (ch : ChannelConfig)
    (outs : ℕ → ℕ → SendOutcome) (k : ℕ) :
    sentMessages (channel_message_loop ch outs k) = ch.messages
    ∧ sentMessages (channel_message_loop ch outs k)
        = sentMessages (channel_message_loop ch outs 0) := by
  refine ⟨sentMessages_channel_cycle ch (outs k), ?_⟩
  rw [channel_message_loop, channel_message_loop, sentMessages_channel_cycle,
    sentMessages_channel_cycle]

/-- C2: for a channel with `n ≥ 1` configured messages, one cycle of the
worker performs exactly `n` waits of the configured delay (the `filter`
conjunct: the cycle's waits are `n` delay-waits followed by the single
1-second inter-cycle wait), one immediately after each send including the
last (the `Chain'` conjunct), and the cycle ends with that 1-second wait,
so the loop returns to message 0 only after it (the `getLast?` conjunct). -/
theorem channel_cycle_waits (ch : ChannelConfig) (out : ℕ → SendOutcome)
    (h : 1 ≤ ch.messages.length) :
    (channel_cycle ch out).filter isWait
      = List.replicate ch.messages.length (Event.wait ch.delay) ++ [Event.wait 1]
    ∧ List.Chain' (fun a b => isSend a = true → b = Event.wait ch.delay)
        (channel_cycle ch out)
    ∧ (channel_cycle ch out).getLast? = some (Event.wait 1) := by
  refine ⟨?_, ?_, getLast?_channel_cycle ch out⟩
  · simp only [channel_cycle, List.filter_cons, List.filter_append, isWait,
      filter_isWait_sendPhase]
    rfl
  · simp only [channel_cycle]
    refine List.chain'_cons'.mpr ⟨?_, ?_⟩
    · intro y _ hsend
      simp [isSend] at hsend
    · refine chain_sendPhase out ch.delay ch.messages 0 _ ?_
      refine List.chain'_cons'.mpr ⟨?_, ?_⟩
      · intro y _ hsend
        simp [isSend] at hsend
      · exact List.chain'_singleton _

/-- A concrete one-message channel for the witness below. -/
def oneMsgChannel : ChannelConfig :=
  { url := "u", id := "c", «alias» := "c", messages := ["hi".toList], delay := 2 }

/-- Witness for `channel_cycle_waits` at a concrete one-message channel. -/
theorem channel_cycle_waits_witness :
    (channel_cycle oneMsgChannel (fun _ => SendOutcome.success)).filter isWait
      = List.replicate oneMsgChannel.messages.length (Event.wait oneMsgChannel.delay)
          ++ [Event.wait 1]
    ∧ List.Chain' (fun a b => isSend a = true → b = Event.wait oneMsgChannel.delay)
        (channel_cycle oneMsgChannel (fun _ => SendOutcome.success))
    ∧ (channel_cycle oneMsgChannel (fun _ => SendOutcome.success)).getLast?
        = some (Event.wait 1) :=
  channel_cycle_waits oneMsgChannel (fun _ => SendOutcome.success) (by decide)

/-- C4: the worker's schedule — every event stamped with its cumulative
wait time — is, once send outcomes are erased, identical whatever outcome
(success, rejection, or transport error) each send produced; in particular
it is identical to the all-success case, so a failed send of message `i`
still lets message `i+1` (or the inter-cycle pause) be reached after
exactly the configured delay. -/
theorem channel_message_loop_outcome_independent (ch : ChannelConfig)
    (outs : ℕ → ℕ → SendOutcome) (k : ℕ) :
    (timed (channel_message_loop ch outs k) 0).map (fun p => (p.1, eraseOutcome p.2))
      = (timed (channel_message_loop ch (fun _ _ => SendOutcome.success) k) 0).map
          (fun p => (p.1, eraseOutcome p.2)) := by
  refine timed_map_congr _ _ 0 ?_
  simp only [channel_message_loop, channel_cycle, List.map_cons, List.map_append,
    eraseOutcome]
  exact congrArg (fun l => Event.cycleStart ::
      (l ++ [Event.cycleComplete, Event.wait 1]))
    (map_eraseOutcome_sendPhase ch.delay ch.messages (outs k) (fun _ => SendOutcome.success) 0 0)

/-- C8: a channel with an empty message list still completes each cycle:
the cycle's trace is exactly start-log, completion-log, 1-second wait — so
zero sends are issued, cycle completion is logged, and a wait separates
every iteration of the loop from the next. -/
theorem channel_message_loop_empty_messages (ch : ChannelConfig)
    (outs : ℕ → ℕ → SendOutcome) (k : ℕ) (h : ch.messages = []) :
    channel_message_loop ch outs k
      = [Event.cycleStart, Event.cycleComplete, Event.wait 1]
    ∧ sentMessages (channel_message_loop ch outs k) = []
    ∧ Event.wait 1 ∈ channel_message_loop ch outs k := by
  have htr : channel_message_loop ch outs k
      = [Event.cycleStart, Event.cycleComplete, Event.wait 1] := by
    simp [channel_message_loop, channel_cycle, h, sendPhase]
  refine ⟨htr, ?_, ?_⟩
  · rw [htr]; rfl
  · rw [htr]; simp

/-- A concrete channel with no messages for the witness below. -/
def noMsgChannel : ChannelConfig :=
  { url := "u", id := "c", «alias» := "c", messages := [], delay := 3 }

/-- Witness for `channel_message_loop_empty_messages` at a concrete
channel with no messages. -/
theorem channel_message_loop_empty_messages_witness :
    channel_message_loop noMsgChannel (fun _ _ => SendOutcome.success) 0
      = [Event.cycleStart, Event.cycleComplete, Event.wait 1]
    ∧ sentMessages (channel_message_loop noMsgChannel
        (fun _ _ => SendOutcome.success) 0) = []
    ∧ Event.wait 1 ∈ channel_message_loop noMsgChannel
        (fun _ _ => SendOutcome.success) 0 :=
  channel_message_loop_empty_messages noMsgChannel
    (fun _ _ => SendOutcome.success) 0 rfl

/-! ### The §8 scenario channel: messages ["hi", "bye"], delay 2 s -/

/-- The scenario channel: messages `["hi", "bye"]`, delay 2 seconds. -/
def demoChannel : ChannelConfig :=
  { url := "https://discordapp.com/channels/1/2", id := "2", «alias» := "C1",
    messages := [['h','i'], ['b','y','e']], delay := 2 }

/-- Two consecutive worker cycles on `demoChannel` (all sends succeed),
scheduled from `t = 0`: each event stamped with the cumulative wait time
before it. -/
def demoSchedule : List (ℚ × Event) :=
  timed (channel_message_loop demoChannel (fun _ _ => SendOutcome.success) 0
    ++ channel_message_loop demoChannel (fun _ _ => SendOutcome.success) 1) 0

theorem demoSchedule_val :
    demoSchedule =
      [(0, Event.cycleStart),
       (0, Event.send ['h','i'] SendOutcome.success),
       (0, Event.wait 2),
       (2, Event.send ['b','y','e'] SendOutcome.success),
       (2, Event.wait 2),
       (4, Event.cycleComplete),
       (4, Event.wait 1),
       (5, Event.cycleStart),
       (5, Event.send ['h','i'] SendOutcome.success),
       (5, Event.wait 2),
       (7, Event.send ['b','y','e'] SendOutcome.success),
       (7, Event.wait 2),
       (9, Event.cycleComplete),
       (9, Event.wait 1)] := by
  simp only [demoSchedule, demoChannel, channel_message_loop, channel_cycle, sendPhase,
    List.cons_append, List.nil_append, timed, waitTime]
  norm_num

/-- C3 counterexample: on the scenario channel the code sends "hi" at t=0
and "bye" at t=2 as claimed, but the cycle-complete log does NOT occur at
t=2 and the next "hi" does NOT occur at t=3 — the worker sleeps the full
2-second delay after the last message as well, so no event whatsoever is
scheduled at t=3. -/
theorem demoSchedule_refutes_claimed_times :
    ((0 : ℚ), Event.send ['h','i'] SendOutcome.success) ∈ demoSchedule
    ∧ ((2 : ℚ), Event.send ['b','y','e'] SendOutcome.success) ∈ demoSchedule
    ∧ ((2 : ℚ), Event.cycleComplete) ∉ demoSchedule
    ∧ ((3 : ℚ), Event.send ['h','i'] SendOutcome.success) ∉ demoSchedule
    ∧ demoSchedule.filter (fun p => p.1 = (3 : ℚ)) = [] := by
  rw [demoSchedule_val]
  decide

/-- C3 amended: on the scenario channel the worker's schedule is: send
"hi" at t=0, send "bye" at t=2, cycle-complete log at t=4 (the configured
delay is also slept after the last message), and the next "hi" at t=5
(2 s delay after "bye" plus the 1 s inter-cycle pause). -/
theorem demoSchedule_eq :
    demoSchedule =
      [(0, Event.cycleStart),
       (0, Event.send ['h','i'] SendOutcome.success),
       (0, Event.wait 2),
       (2, Event.send ['b','y','e'] SendOutcome.success),
       (2, Event.wait 2),
       (4, Event.cycleComplete),
       (4, Event.wait 1),
       (5, Event.cycleStart),
       (5, Event.send ['h','i'] SendOutcome.success),
       (5, Event.wait 2),
       (7, Event.send ['b','y','e'] SendOutcome.success),
       (7, Event.wait 2),
       (9, Event.cycleComplete),
       (9, Event.wait 1)] :=
  demoSchedule_val

/-! ### send_message classification, precise_sleep target, main dispatch -/

/-- C5: `send_message` is a total function of the attempt's result (the
whole body is inside `try/except Exception`, so nothing propagates to the
caller): a response with status in 200–299 is reported as success, any
other status as a rejection carrying that status code, and an exception
raised during the attempt as a transport error. -/
theorem send_message_classifies (s : ℕ) :
    (200 ≤ s ∧ s ≤ 299 → send_message (AttemptResult.response s) = SendOutcome.success)
    ∧ (¬(200 ≤ s ∧ s ≤ 299) →
        send_message (AttemptResult.response s) = SendOutcome.rejected s)
    ∧ send_message AttemptResult.raised = SendOutcome.transportError := by
  refine ⟨fun h => ?_, fun h => ?_, rfl⟩
  · simp only [send_message, if_pos (show 199 < s ∧ s < 300 by omega)]
  · simp only [send_message, if_neg (show ¬(199 < s ∧ s < 300) by omega)]

/-- Witness for `send_message_classifies` at statuses 204, 403, and a
raised exception. -/
theorem send_message_classifies_witness :
    send_message (AttemptResult.response 204) = SendOutcome.success
    ∧ send_message (AttemptResult.response 403) = SendOutcome.rejected 403
    ∧ send_message AttemptResult.raised = SendOutcome.transportError :=
  ⟨(send_message_classifies 204).1 (by decide),
   (send_message_classifies 403).2.1 (by decide),
   (send_message_classifies 403).2.2⟩

/-- C7 counterexample: `precise_sleep` conditions jitter on its
`randomize` flag, not on the jitter bounds being non-zero.  With
`randomize = False` and bounds `(1, 2)` — non-zero — the target stays
exactly `duration` (here 5), not `duration + U(1, 2)`: for the valid
uniform draw `u = 3/2` the claimed target `5 + 3/2` differs from the
computed one. -/
theorem precise_sleep_duration_counterexample :
    precise_sleep_duration 5 false 1 2 (3 / 2) = 5
    ∧ ((1 : ℚ) ≤ 3 / 2 ∧ (3 / 2 : ℚ) ≤ 2)
    ∧ ¬((1 : ℚ) = 0 ∧ (2 : ℚ) = 0)
    ∧ precise_sleep_duration 5 false 1 2 (3 / 2) ≠ 5 + 3 / 2 := by
  refine ⟨rfl, ⟨by norm_num, by norm_num⟩, by norm_num, ?_⟩
  simp only [precise_sleep_duration, if_neg (Bool.false_ne_true)]
  norm_num

/-- C7 amended: the target suspension length computed by `precise_sleep`
equals `duration + u` (with `u` the `random.uniform(min_random,
max_random)` draw) exactly when the `randomize` flag is set, and equals
`duration` when the flag is unset, regardless of the jitter bounds. -/
theorem precise_sleep_duration_eq (duration min_random max_random u : ℚ) :
    precise_sleep_duration duration true min_random max_random u = duration + u
    ∧ precise_sleep_duration duration false min_random max_random u = duration :=
  ⟨rfl, rfl⟩

/-- C9: if configuration loading yields zero users, `main` ends right
after the diagnostic, starting no worker; for any non-empty user list it
starts one worker per (user, channel) pair. -/
theorem main_dispatch_spec (users : List UserConfig) :
    (users = [] → main_dispatch users = MainResult.noUsersDiagnostic)
    ∧ (users ≠ [] →
        main_dispatch users = MainResult.started (workerPairs users)) := by
  constructor
  · intro h
    subst h
    rfl
  · intro h
    simp [main_dispatch, h]

/-- A concrete one-channel user for the witness below. -/
def demoUser : UserConfig :=
  { user_id := "u1", token := "tok", «alias» := "u1",
    channels := [{ url := "u", id := "d", «alias» := "d", messages := [['h','i']], delay := 4 }] }

/-- Witness for `main_dispatch_spec`: the empty user list yields the
diagnostic, and a one-user list starts that user's workers. -/
theorem main_dispatch_spec_witness :
    main_dispatch [] = MainResult.noUsersDiagnostic
    ∧ main_dispatch [demoUser] = MainResult.started (workerPairs [demoUser]) :=
  ⟨(main_dispatch_spec []).1 rfl, (main_dispatch_spec [demoUser]).2 (by decide)⟩

/-! ### Lemmas about configuration loading -/

theorem addRow_preserves (users : List UserConfig) (row : SheetRow)
    (u : UserConfig) (c : ChannelConfig) (hu : u ∈ users) (hc : c ∈ u.channels) :
    ∃ v ∈ addRow users row, c ∈ v.channels := by
  unfold addRow
  by_cases h : (users.any fun x => x.user_id = row.user_id) = true
  · simp only [h, if_true]
    refine ⟨_, List.mem_map_of_mem _ hu, ?_⟩
    by_cases hx : u.user_id = row.user_id
    · simp only [hx, if_true]
      exact List.mem_append_left _ hc
    · simp only [hx, if_false]
      exact hc
  · simp only [h, if_false]
    exact ⟨u, List.mem_append_left _ hu, hc⟩

theorem addRow_adds (users : List UserConfig) (row : SheetRow) :
    ∃ v ∈ addRow users row, ChannelConfig.from_sheet_row row ∈ v.channels := by
  unfold addRow
  by_cases h : (users.any fun x => x.user_id = row.user_id) = true
  · simp only [h, if_true]
    obtain ⟨u, hu, hid⟩ := List.any_eq_true.mp h
    refine ⟨_, List.mem_map_of_mem _ hu, ?_⟩
    have hid' : u.user_id = row.user_id := by simpa using hid
    simp only [hid', if_true]
    exact List.mem_append_right _ (List.mem_singleton_self _)
  · simp only [h, if_false]
    refine ⟨_, List.mem_append_right _ (List.mem_singleton_self _), ?_⟩
    exact List.mem_singleton_self _

theorem foldl_addRow_preserves (rows : List SheetRow) :
    ∀ (acc : List UserConfig) (u : UserConfig) (c : ChannelConfig),
      u ∈ acc → c ∈ u.channels →
      ∃ v ∈ rows.foldl addRow acc, c ∈ v.channels := by
  induction rows with
  | nil => intro acc u c hu hc; exact ⟨u, hu, hc⟩
  | cons r rs ih =>
    intro acc u c hu hc
    obtain ⟨v, hv, hcv⟩ := addRow_preserves acc r u c hu hc
    exact ih (addRow acc r) v c hv hcv

theorem foldl_addRow_mem :
    ∀ (rows : List SheetRow) (acc : List UserConfig) (row : SheetRow),
      row ∈ rows →
      ∃ u ∈ rows.foldl addRow acc, ChannelConfig.from_sheet_row row ∈ u.channels := by
  intro rows
  induction rows with
  | nil => intro acc row h; cases h
  | cons r rs ih =>
    intro acc row h
    rcases List.mem_cons.mp h with hr | h'
    · subst hr
      obtain ⟨v, hv, hcv⟩ := addRow_adds acc row
      exact foldl_addRow_preserves rs (addRow acc row) v _ hv hcv
    · exact ih (addRow acc r) row h'

/-! ### Claim theorems about configuration loading -/

/-- A sheet row whose Delay cell parses to 0. -/
def zeroDelayRow : SheetRow :=
  { user_id := "u1", user_alias := "", token := "tok",
    channel_url := "https://discordapp.com/channels/1/2", channel_id := "2",
    channel_alias := "C1", messages_raw := ['h','i'], delay := 0 }

/-- The user `load_from_sheets` builds from `zeroDelayRow`. -/
def zeroDelayUser : UserConfig :=
  { user_id := "u1", token := "tok", «alias» := "u1",
    channels := [ChannelConfig.from_sheet_row zeroDelayRow] }

/-- C6 counterexample: a complete sheet row whose Delay cell is `0` is
accepted by `load_from_sheets` without any positivity check, the channel
built from it has `delay = 0`, and `main` starts a worker for it — so a
channel with `¬(delay > 0)` reaches a worker. -/
theorem load_accepts_zero_delay :
    (ChannelConfig.from_sheet_row zeroDelayRow).delay = 0
    ∧ (∃ u ∈ load_from_sheets [zeroDelayRow],
        ∃ ch ∈ u.channels, ¬(0 < ch.delay))
    ∧ (∃ p ∈ workerPairs (load_from_sheets [zeroDelayRow]), ¬(0 < p.2.delay)) := by
  refine ⟨rfl, ?_, ?_⟩
  · exact ⟨zeroDelayUser, by decide,
      ChannelConfig.from_sheet_row zeroDelayRow, by decide, by decide⟩
  · exact ⟨(zeroDelayUser, ChannelConfig.from_sheet_row zeroDelayRow),
      by decide, by decide⟩

/-- C6 amended: configuration loading applies no check to the Delay
column — every complete sheet row yields a channel whose `delay` is
exactly the parsed cell value (positive or not), and that channel is
loaded into its user's channel list. -/
theorem load_from_sheets_no_delay_check (rows : List SheetRow) (row : SheetRow)
    (h : row ∈ rows) :
    (ChannelConfig.from_sheet_row row).delay = row.delay
    ∧ ∃ u ∈ load_from_sheets rows, ChannelConfig.from_sheet_row row ∈ u.channels :=
  ⟨rfl, foldl_addRow_mem rows [] row h⟩

/-- Witness for `load_from_sheets_no_delay_check` at the zero-delay row. -/
theorem load_from_sheets_no_delay_check_witness :
    (ChannelConfig.from_sheet_row zeroDelayRow).delay = zeroDelayRow.delay
    ∧ ∃ u ∈ load_from_sheets [zeroDelayRow],
        ChannelConfig.from_sheet_row zeroDelayRow ∈ u.channels :=
  load_from_sheets_no_delay_check [zeroDelayRow] zeroDelayRow (by decide)

/-! ### Lemmas about split and strip -/

theorem comma_not_mem_splitOnComma :
    ∀ (l : List Char) (p : List Char), p ∈ splitOnComma l → ',' ∉ p := by
  intro l
  induction l with
  | nil =>
    intro p hp
    simp only [splitOnComma, List.mem_singleton] at hp
    subst hp
    simp
  | cons c cs ih =>
    intro p hp
    by_cases hc : c = ','
    · subst hc
      simp [splitOnComma, List.mem_cons] at hp
      rcases hp with rfl | hp
      · simp
      · exact ih p hp
    · cases hsc : splitOnComma cs with
      | nil =>
        have hform : splitOnComma (c :: cs) = [[c]] := by
          simp [splitOnComma, if_neg hc, hsc]
        rw [hform, List.mem_singleton] at hp
        subst hp
        intro hmem
        exact hc (List.mem_singleton.mp hmem).symm
      | cons q qs =>
        have hform : splitOnComma (c :: cs) = (c :: q) :: qs := by
          simp [splitOnComma, if_neg hc, hsc]
        rw [hform, List.mem_cons] at hp
        rcases hp with rfl | hp'
        · intro hmem
          rcases List.mem_cons.mp hmem with h1 | h2
          · exact hc h1.symm
          · exact ih q (hsc ▸ List.mem_cons_self q qs) h2
        · exact ih p (hsc ▸ List.mem_cons_of_mem q hp')

theorem mem_of_mem_pyStrip (l : List Char) (x : Char) (h : x ∈ pyStrip l) : x ∈ l := by
  unfold pyStrip at h
  have h1 := (List.dropWhile_sublist pyWs).mem h
  rw [List.mem_reverse] at h1
  have h2 := (List.dropWhile_sublist pyWs).mem h1
  rwa [List.mem_reverse] at h2

theorem pyWs_head_dropWhile (l : List Char) :
    ∀ c ∈ (List.dropWhile pyWs l).head?, pyWs c = false := by
  intro c hc
  have h := List.head?_dropWhile_not pyWs l
  rw [Option.mem_def] at hc
  rw [hc] at h
  exact h

theorem getLast?_dropWhile_of_ne_nil (p : Char → Bool) :
    ∀ (l : List Char), List.dropWhile p l ≠ [] →
      (List.dropWhile p l).getLast? = l.getLast? := by
  intro l
  induction l with
  | nil => intro h; simp at h
  | cons a as ih =>
    intro h
    by_cases hp : p a = true
    · rw [List.dropWhile_cons_of_pos hp] at h ⊢
      have has : as ≠ [] := by
        intro e
        subst e
        simp [List.dropWhile] at h
      rw [ih h]
      cases as with
      | nil => exact absurd rfl has
      | cons b bs => rw [List.getLast?_cons_cons]
    · rw [List.dropWhile_cons_of_neg (by simpa using hp)]

theorem pyStrip_head (l : List Char) :
    ∀ c ∈ (pyStrip l).head?, pyWs c = false := by
  unfold pyStrip
  exact pyWs_head_dropWhile _

theorem pyStrip_getLast (l : List Char) (hne : pyStrip l ≠ []) :
    ∀ c ∈ (pyStrip l).getLast?, pyWs c = false := by
  intro c hc
  unfold pyStrip at hc hne
  rw [getLast?_dropWhile_of_ne_nil pyWs _ hne, List.getLast?_reverse] at hc
  exact pyWs_head_dropWhile _ c hc

/-- C10: every message of a channel built from a sheet row is a
comma-separated piece of the Messages cell, stripped of surrounding
whitespace, with empty pieces dropped — hence non-empty, with no leading
or trailing whitespace character, and containing no comma. -/
theorem from_sheet_row_messages_wellformed (row : SheetRow) (m : List Char)
    (hm : m ∈ (ChannelConfig.from_sheet_row row).messages) :
    m ≠ []
    ∧ (∀ c ∈ m.head?, pyWs c = false)
    ∧ (∀ c ∈ m.getLast?, pyWs c = false)
    ∧ ',' ∉ m := by
  have hm' : m ∈ parseMessages row.messages_raw := hm
  unfold parseMessages at hm'
  obtain ⟨hmem, hne⟩ := List.mem_filter.mp hm'
  have hne' : m ≠ [] := by simpa using hne
  obtain ⟨piece, hp, hstrip⟩ := List.mem_map.mp hmem
  refine ⟨hne', ?_, ?_, ?_⟩
  · rw [← hstrip]
    exact pyStrip_head piece
  · rw [← hstrip]
    refine pyStrip_getLast piece ?_
    rw [hstrip]
    exact hne'
  · intro hcm
    rw [← hstrip] at hcm
    exact comma_not_mem_splitOnComma row.messages_raw piece hp
      (mem_of_mem_pyStrip piece ',' hcm)

/-- Witness for `from_sheet_row_messages_wellformed` at the concrete row
`zeroDelayRow` (Messages cell "hi") and its message "hi". -/
theorem from_sheet_row_messages_wellformed_witness :
    ['h','i'] ∈ (ChannelConfig.from_sheet_row zeroDelayRow).messages
    ∧ (['h','i'] : List Char) ≠ []
    ∧ pyWs 'h' = false
    ∧ pyWs 'i' = false
    ∧ ',' ∉ (['h','i'] : List Char) :=
  ⟨by decide,
   (from_sheet_row_messages_wellformed zeroDelayRow ['h','i'] (by decide)).1,
   (from_sheet_row_messages_wellformed zeroDelayRow ['h','i'] (by decide)).2.1 'h' rfl,
   (from_sheet_row_messages_wellformed zeroDelayRow ['h','i'] (by decide)).2.2.1 'i' rfl,
   (from_sheet_row_messages_wellformed zeroDelayRow ['h','i'] (by decide)).2.2.2⟩
